import Mathlib

/-!
# Verification of the DragDropWidgets event, drag and layout logic

Shallow embedding of the parts of the `dragdropwidgets` Python library that
the specification's claims talk about:

* `dragdropwidgets/utils/events.py` — `Event`, `EventHandler`, `EventManager`
  (registration, priority-ordered dispatch, cancellation, bounded history,
  enable/disable);
* `dragdropwidgets/core/draggable.py` — `DraggableWidget` mouse handling
  (drag threshold, grid snapping, valid-position check, revert on release);
* `dragdropwidgets/core/drop_zone.py` — `DropZone.add_widget`,
  `set_grid_visible`, grid-size assignment;
* `dragdropwidgets/core/layout_manager.py` — `distribute_widgets`
  (horizontal direction).

Modelling conventions: Python ints are `Int`/`Nat`; Python floats are exact
rationals (`ℚ`); Python's stable `list.sort` is modelled by a stable
insertion sort with the same key; callbacks are pure functions
`Event → Event` (a handler may flip the `cancelled`/`handled` flags of the
event it receives); Qt signal emission and repainting have no effect on the
modelled state and are dropped; `datetime.now()` timestamps and the
`source`/`data` payload of events are not observable by any claim and are
omitted.  Dispatch additionally returns an invocation log recording, in
order, each handler that was actually called together with the event value
it received.
-/

namespace DDW

/-- An integer point, modelling `QPoint` (integer coordinates). -/
structure Pt where
  x : Int
  y : Int
deriving DecidableEq

/-- `QPoint` addition. -/
def Pt.add (a b : Pt) : Pt := ⟨a.x + b.x, a.y + b.y⟩

/-- `QPoint` subtraction. -/
def Pt.sub (a b : Pt) : Pt := ⟨a.x - b.x, a.y - b.y⟩

/-- `QPoint.manhattanLength`: `|x| + |y|`. -/
def Pt.manhattanLength (p : Pt) : Int := |p.x| + |p.y|

/-! ## events.py -/

/-- `EventPriority` enum: LOW=1, NORMAL=2, HIGH=3, CRITICAL=4. -/
inductive EventPriority
  | low
  | normal
  | high
  | critical
deriving DecidableEq

/-- `EventPriority.value` as used by the sort key `h.priority.value`. -/
def EventPriority.value : EventPriority → Nat
  | .low => 1
  | .normal => 2
  | .high => 3
  | .critical => 4

/-- `Event`: the fields the claims observe.  `source`, `data` and
`timestamp` are never inspected by the modelled code paths and are omitted.
`cancel()` sets `cancelled := true`; `mark_handled()` sets
`handled := true`. -/
structure Event where
  eventType : String
  priority : EventPriority
  cancelled : Bool
  handled : Bool
deriving DecidableEq

/-- `EventHandler` wrapper.  `hid` stands in for the Python object identity
(`id(event_handler)`), used only to observe which handler ran. -/
structure EventHandler where
  hid : Nat
  callback : Event → Event
  priority : EventPriority
  once : Bool
  callCount : Nat
  enabled : Bool

/-- `EventHandler.__call__`: if disabled return unchanged; otherwise run the
callback, bump `call_count`, and disable the handler when `once` is set. -/
def EventHandler.call (h : EventHandler) (e : Event) : EventHandler × Event :=
  if ¬ h.enabled then (h, e)
  else
    let e' := h.callback e
    ({ h with callCount := h.callCount + 1,
              enabled := if h.once then false else h.enabled }, e')

/-- The `_event_handlers` dict: Python dicts iterate in insertion order, so
an association list is a faithful model. -/
abbrev HandlerDict := List (String × List EventHandler)

/-- Dict lookup (`self._event_handlers[name]` / `name in self._event_handlers`). -/
def lookupHandlers : HandlerDict → String → Option (List EventHandler)
  | [], _ => none
  | (k, v) :: rest, name => if k = name then some v else lookupHandlers rest name

/-- Dict update `self._event_handlers[name] = v` (keeps key order, appends a
fresh key at the end, as a Python dict does). -/
def setHandlers : HandlerDict → String → List EventHandler → HandlerDict
  | [], name, v => [(name, v)]
  | (k, v') :: rest, name, v =>
    if k = name then (k, v) :: rest else (k, v') :: setHandlers rest name v

/-- One step of a stable descending insertion by `priority.value`: the new
handler is placed before the first strictly lower priority, hence after all
handlers of greater or equal priority. -/
def sortInsert (h : EventHandler) : List EventHandler → List EventHandler
  | [] => [h]
  | x :: xs =>
    if x.priority.value < h.priority.value then h :: x :: xs
    else x :: sortInsert h xs

/-- `list.sort(key=lambda h: h.priority.value, reverse=True)`.  Python's
sort is stable and `reverse=True` keeps equal keys in insertion order; a
left-to-right stable insertion sort computes the same list. -/
def sortByPriorityDesc (l : List EventHandler) : List EventHandler :=
  l.foldl (fun acc h => sortInsert h acc) []

/-- `EventManager` state. -/
structure EventManager where
  eventHandlers : HandlerDict
  globalHandlers : List EventHandler
  eventHistory : List Event
  maxHistory : Nat
  enabled : Bool

/-- `EventManager.__init__`: empty handlers and history, `_max_history =
1000`, `_enabled = True`. -/
def EventManager.init : EventManager :=
  { eventHandlers := [], globalHandlers := [], eventHistory := [],
    maxHistory := 1000, enabled := true }

/-- `EventManager.register_event`: wrap the callback in a fresh
`EventHandler` (call count 0, enabled), append it to the type's list, then
re-sort that list by priority descending. -/
def EventManager.registerEvent (s : EventManager) (name : String) (hid : Nat)
    (cb : Event → Event) (priority : EventPriority) (once : Bool) : EventManager :=
  let h : EventHandler :=
    { hid := hid, callback := cb, priority := priority, once := once,
      callCount := 0, enabled := true }
  let cur := (lookupHandlers s.eventHandlers name).getD []
  { s with eventHandlers :=
      setHandlers s.eventHandlers name (sortByPriorityDesc (cur ++ [h])) }

/-- `EventManager._add_to_history`: append, then `pop(0)` once if the
length exceeds `_max_history`. -/
def addToHistory (hist : List Event) (maxH : Nat) (e : Event) : List Event :=
  let h2 := hist ++ [e]
  if maxH < h2.length then h2.tail else h2

/-- One dispatch loop of `emit_event` (used for both the global and the
type-specific handler lists): iterate in order, `break` as soon as a
disabled handler is reached or the event is cancelled; otherwise call the
handler.  Returns the updated handler list, the event after the loop, and
the invocation log (each called handler paired with the event it
received).  Exceptions raised by a callback are caught and printed by the
Python code; callbacks are modelled as total. -/
def runHandlers : List EventHandler → Event → List EventHandler × Event × List (EventHandler × Event)
  | [], e => ([], e, [])
  | h :: hs, e =>
    if ¬ h.enabled ∨ e.cancelled then (h :: hs, e, [])
    else
      let ce := h.call e
      let rest := runHandlers hs ce.2
      (ce.1 :: rest.1, rest.2.1, (h, e) :: rest.2.2)

/-- `EventManager.emit_event`: `None` when disabled; otherwise create the
event, append it to the history, run the global handlers, then — when the
event type has handlers and the event was not cancelled — run the
type-specific handlers.  The history stores the event object created at
emission time (the log carries the intermediate event values). -/
def EventManager.emitEvent (s : EventManager) (name : String)
    (priority : EventPriority) :
    Option Event × EventManager × List (EventHandler × Event) :=
  if ¬ s.enabled then (none, s, [])
  else
    let e : Event := { eventType := name, priority := priority,
                       cancelled := false, handled := false }
    let hist := addToHistory s.eventHistory s.maxHistory e
    let g := runHandlers s.globalHandlers e
    match lookupHandlers s.eventHandlers name with
    | some ths =>
      if ¬ g.2.1.cancelled then
        let t := runHandlers ths g.2.1
        (some t.2.1,
         { s with eventHistory := hist, globalHandlers := g.1,
                  eventHandlers := setHandlers s.eventHandlers name t.1 },
         g.2.2 ++ t.2.2)
      else
        (some g.2.1,
         { s with eventHistory := hist, globalHandlers := g.1 }, g.2.2)
    | none =>
      (some g.2.1,
       { s with eventHistory := hist, globalHandlers := g.1 }, g.2.2)

/-- `EventManager.enable_event_manager`. -/
def EventManager.enableEventManager (s : EventManager) : EventManager :=
  { s with enabled := true }

/-- `EventManager.disable_event_manager`. -/
def EventManager.disableEventManager (s : EventManager) : EventManager :=
  { s with enabled := false }

/-- The invocation log of a single emission. -/
def emitLog (s : EventManager) (name : String) (priority : EventPriority) :
    List (EventHandler × Event) :=
  (s.emitEvent name priority).2.2

/-- The handler ids invoked by a single emission, in invocation order. -/
def emitIds (s : EventManager) (name : String) (priority : EventPriority) :
    List Nat :=
  (emitLog s name priority).map fun q => q.1.hid

/-- Emit a sequence of events, threading the manager state. -/
def emitAll (s : EventManager) : List (String × EventPriority) → EventManager
  | [] => s
  | (n, p) :: rest => emitAll (s.emitEvent n p).2.1 rest

/-! ## draggable.py -/

/-- Python's `round` on an exact value: nearest integer, ties to even
(banker's rounding).  `Rat.floor` is used so the definition evaluates by
kernel reduction. -/
def pyRound (q : ℚ) : ℤ :=
  let f := q.floor
  let r := q - (f : ℚ)
  if r < 1 / 2 then f
  else if 1 / 2 < r then f + 1
  else if f % 2 = 0 then f else f + 1

/-- `DraggableWidget._snap_to_grid`:
`round(position.x() / grid_size) * grid_size` on each axis. -/
def snapToGridP (gridSize : Int) (position : Pt) : Pt :=
  ⟨pyRound ((position.x : ℚ) / (gridSize : ℚ)) * gridSize,
   pyRound ((position.y : ℚ) / (gridSize : ℚ)) * gridSize⟩

/-- The `DraggableWidget` state observed by the drag claims.  `size` is the
widget's `rect()` extents (Qt enforces the 50×30 minimum, so both are
positive); `parentSize` is `none` when the widget has no parent. -/
structure DragWidget where
  pos : Pt
  size : Pt
  parentSize : Option Pt
  dragStartPosition : Pt
  isDragging : Bool
  originalPosition : Pt
  dragThreshold : Int
  snapToGrid : Bool
  gridSize : Int
  isDraggable : Bool
deriving DecidableEq

/-- Signals emitted by the drag logic (`drag_started`, `widget_moved`,
`drag_finished`). -/
inductive Emit
  | dragStarted
  | widgetMoved (p : Pt)
  | dragFinished (p : Pt)
deriving DecidableEq

/-- `DraggableWidget.mousePressEvent` for a press at widget-local point
`localPos`: on a left-button press of a draggable widget, record the press
point and the current position. -/
def mousePressEvent (w : DragWidget) (localPos : Pt) (leftButton : Bool) :
    DragWidget :=
  if leftButton ∧ w.isDraggable then
    { w with dragStartPosition := localPos, originalPosition := w.pos }
  else w

/-- `DraggableWidget.mouseMoveEvent` at widget-local cursor `localPos` with
the left button held.  `mapToParent(q)` for a plain widget is
`self.pos() + q`.  Returns the new state and the emitted signals. -/
def mouseMoveEvent (w : DragWidget) (localPos : Pt) (leftHeld : Bool) :
    DragWidget × List Emit :=
  if ¬ (leftHeld ∧ w.isDraggable) then (w, [])
  else
    let distance := (localPos.sub w.dragStartPosition).manhattanLength
    if distance < w.dragThreshold then (w, [])
    else
      let step :=
        if ¬ w.isDragging then
          ({ w with isDragging := true }, [Emit.dragStarted])
        else (w, ([] : List Emit))
      let w1 := step.1
      let candidate := w1.pos.add (localPos.sub w1.dragStartPosition)
      let newPosition :=
        if w1.snapToGrid then snapToGridP w1.gridSize candidate else candidate
      ({ w1 with pos := newPosition }, step.2 ++ [Emit.widgetMoved newPosition])

/-- `DraggableWidget._is_valid_position`: no parent means any position is
valid; otherwise `parent.rect().contains(widget.rect() moved to position)`,
which for positively-sized rects is containment of
`[position, position + size]` in `[0, parentSize]` on both axes. -/
def isValidPosition (w : DragWidget) (position : Pt) : Bool :=
  match w.parentSize with
  | none => true
  | some ps =>
    decide (0 ≤ position.x ∧ 0 ≤ position.y ∧
      position.x + w.size.x ≤ ps.x ∧ position.y + w.size.y ≤ ps.y)

/-- `DraggableWidget.mouseReleaseEvent` for a left-button release: when a
drag is active, stop it; keep the position and emit `drag_finished` if it
is valid, otherwise move back to the recorded original position (no signal
for the revert).  The function is total: the invalid case raises no
error. -/
def mouseReleaseEvent (w : DragWidget) (leftButton : Bool) :
    DragWidget × List Emit :=
  if w.isDragging ∧ leftButton then
    let w0 := { w with isDragging := false }
    let finalPosition := w0.pos
    if isValidPosition w0 finalPosition then
      (w0, [Emit.dragFinished finalPosition])
    else
      ({ w0 with pos := w0.originalPosition }, [])
  else (w, [])

/-- Run a sequence of mouse-move samples (left button held), collecting the
emitted signals. -/
def runMoves (w : DragWidget) : List Pt → DragWidget × List Emit
  | [] => (w, [])
  | p :: ps =>
    let step := mouseMoveEvent w p true
    let rest := runMoves step.1 ps
    (rest.1, step.2 ++ rest.2)

/-! ## drop_zone.py -/

/-- A widget as the `DropZone` sees it.  `widget_id` is a fresh `uuid4`
per object, so object identity (`widget not in self.widgets`) coincides
with `widget_id` equality. -/
structure ZWidget where
  widgetId : String
  pos : Pt
  size : Pt
deriving DecidableEq

/-- `DropZone` state observed by the claims. -/
structure DropZone where
  widgets : List ZWidget
  showGrid : Bool
  gridSize : Int
  layoutMode : String
deriving DecidableEq

/-- `DropZone` signals relevant to the claims. -/
inductive ZoneEmit
  | layoutChanged
deriving DecidableEq

/-- Python truthiness of the optional `position` argument: `None` is falsy,
and so is `QPoint(0, 0)` (a null `QPoint` is falsy in PySide). -/
def qpointTruthy : Option Pt → Bool
  | none => false
  | some p => decide (¬ p = ⟨0, 0⟩)

/-- `DropZone.add_widget`: no-op when the widget is already in the zone;
otherwise append it, then move it to the given position when that argument
is truthy, else to `(len(self.widgets) * 50, len(self.widgets) * 30)` —
the length being measured *after* the append — and emit `layout_changed`. -/
def addWidget (z : DropZone) (w : ZWidget) (position : Option Pt) :
    DropZone × List ZoneEmit :=
  if (z.widgets.map ZWidget.widgetId).contains w.widgetId then (z, [])
  else
    let n : Int := (z.widgets.length : Int) + 1
    let newPos : Pt :=
      if qpointTruthy position then (position.getD w.pos)
      else ⟨n * 50, n * 30⟩
    ({ z with widgets := z.widgets ++ [{ w with pos := newPos }] },
     [ZoneEmit.layoutChanged])

/-- `DropZone.set_grid_visible`: set the flag and repaint (`update()` has
no effect on the modelled state). -/
def setGridVisible (z : DropZone) (visible : Bool) : DropZone :=
  { z with showGrid := visible }

/-- A grid-size change is the plain attribute assignment
`self.grid_size = g` (as in `load_layout_data`); there is no other grid
setter on `DropZone`. -/
def setGridSize (z : DropZone) (g : Int) : DropZone :=
  { z with gridSize := g }

/-! ## layout_manager.py (distribute_widgets, horizontal) -/

/-- Python `int()` on an exact value: truncation toward zero (the ceiling
`-⌊-q⌋` for negative `q`, the floor otherwise). -/
def truncQ (q : ℚ) : ℤ := if 0 ≤ q then q.floor else -((-q).floor)

/-- `min` over a list of integers (the `n ≥ 2` guard keeps the list
nonempty whenever this is used; 0 is a junk value for `[]`). -/
def listMin : List ℤ → ℤ
  | [] => 0
  | x :: xs => xs.foldl min x

/-- `max` over a list of integers (same convention as `listMin`). -/
def listMax : List ℤ → ℤ
  | [] => 0
  | x :: xs => xs.foldl max x

/-- One step of a stable ascending insertion by `pos.x`: the new widget is
placed before the first strictly larger x, i.e. it keeps its original
order relative to equal x values coming from earlier in the list. -/
def insertByX (w : ZWidget) : List ZWidget → List ZWidget
  | [] => [w]
  | v :: vs => if w.pos.x ≤ v.pos.x then w :: v :: vs else v :: insertByX w vs

/-- `widgets.sort(key=lambda w: w.x())`: Python's stable sort, modelled by
a stable insertion sort with the same key. -/
def sortByX (l : List ZWidget) : List ZWidget := l.foldr insertByX []

/-- The sorted widget list used by `distribute_widgets('horizontal')`. -/
def sortedOf (ws : List ZWidget) : List ZWidget := sortByX ws

/-- `spacing = (total_width - sum_of_widths) / (len(widgets) - 1)` where
`total_width = max(x + width) - min(x)`; the Python code guards the
division with `if len(widgets) > 1 else 0`. -/
def spacingOf (ws : List ZWidget) : ℚ :=
  if 1 < ws.length then
    ((listMax ((sortedOf ws).map fun w => w.pos.x + w.size.x)
      - listMin ((sortedOf ws).map fun w => w.pos.x)
      - ((sortedOf ws).map fun w => w.size.x).sum : ℤ) : ℚ)
      / ((ws.length : ℚ) - 1)
  else 0

/-- `current_x = widgets[0].x()` (junk 0 for an empty list, unreachable
under the `n ≥ 2` guard). -/
def x0Of (ws : List ZWidget) : ℚ :=
  ((((sortedOf ws).head?.map fun w => w.pos.x).getD 0 : ℤ) : ℚ)

/-- The placement loop of `distribute_widgets('horizontal')`: the running
`current_x` stays exact (a float in Python), each widget is moved to
`QPoint(int(current_x), widget.y())`, and after each widget `current_x`
advances by that widget's width plus the spacing. -/
def placeLoop (spacing : ℚ) : ℚ → List ZWidget → List ZWidget
  | _, [] => []
  | currentX, w :: ws =>
    { w with pos := ⟨truncQ currentX, w.pos.y⟩ } ::
      placeLoop spacing (currentX + (w.size.x : ℚ) + spacing) ws

/-- `DynamicLayoutManager.distribute_widgets(widgets, 'horizontal')`:
no-op below two widgets; otherwise sort by x and lay out sequentially from
the first widget's original x. -/
def distributeWidgetsH (ws : List ZWidget) : List ZWidget :=
  if ws.length < 2 then ws
  else placeLoop (spacingOf ws) (x0Of ws) (sortedOf ws)

/-- Width of the `i`-th widget of the sorted list (0 past the end). -/
def widthAt (l : List ZWidget) (i : Nat) : ℤ :=
  ((l.get? i).map fun w => w.size.x).getD 0

/-- Widths of the first `i` widgets, summed (the amount `current_x` grows
by widths after `i` placements). -/
def prefixW : List ZWidget → Nat → ℤ
  | _, 0 => 0
  | [], _ + 1 => 0
  | w :: l, i + 1 => w.size.x + prefixW l i

/-- The exact (un-truncated) x position the placement loop assigns to the
`i`-th sorted widget: consecutive values differ by exactly
`width + spacing`. -/
def rposW (ws : List ZWidget) : Nat → ℚ
  | 0 => x0Of ws
  | i + 1 => rposW ws i + (widthAt (sortedOf ws) i : ℚ) + spacingOf ws

/-! ## Auxiliary predicates and concrete fixtures -/

/-- The invocation log of one emission forms a chain: each logged handler
received the (uncancelled) event produced by the previous logged handler's
callback, starting from the freshly created event. -/
def chainedFrom : Event → List (EventHandler × Event) → Event → Prop
  | e, [], efin => efin = e
  | e, (h, ev) :: rest, efin =>
    ev = e ∧ ev.cancelled = false ∧ chainedFrom (h.callback e) rest efin

/-- A manager with one cancelling global handler and one type handler. -/
def sCancel : EventManager :=
  { eventHandlers := [("t",
      [{ hid := 2, callback := fun e => e, priority := .normal, once := false,
         callCount := 0, enabled := true }])],
    globalHandlers :=
      [{ hid := 1, callback := fun e => { e with cancelled := true },
         priority := .normal, once := false, callCount := 0, enabled := true }],
    eventHistory := [], maxHistory := 1000, enabled := true }

/-- A draggable widget resting at a grid-aligned position. -/
def wMov : DragWidget :=
  { pos := ⟨100, 100⟩, size := ⟨50, 30⟩, parentSize := some ⟨400, 300⟩,
    dragStartPosition := ⟨0, 0⟩, isDragging := false,
    originalPosition := ⟨0, 0⟩, dragThreshold := 5, snapToGrid := false,
    gridSize := 20, isDraggable := true }

/-- A mid-drag widget whose current position is inside its parent. -/
def wRel : DragWidget :=
  { pos := ⟨10, 10⟩, size := ⟨50, 30⟩, parentSize := some ⟨400, 300⟩,
    dragStartPosition := ⟨0, 0⟩, isDragging := true,
    originalPosition := ⟨3, 4⟩, dragThreshold := 5, snapToGrid := false,
    gridSize := 20, isDraggable := true }

/-- A grid-snapping widget at the position of the spec's worked example. -/
def wEx : DragWidget :=
  { pos := ⟨100, 100⟩, size := ⟨50, 30⟩, parentSize := some ⟨400, 300⟩,
    dragStartPosition := ⟨0, 0⟩, isDragging := false,
    originalPosition := ⟨0, 0⟩, dragThreshold := 5, snapToGrid := true,
    gridSize := 20, isDraggable := true }

/-- A grid-snapping widget resting at (5,5), which is not a multiple of its
grid size 20. -/
def wSnap : DragWidget :=
  { pos := ⟨5, 5⟩, size := ⟨50, 30⟩, parentSize := some ⟨200, 200⟩,
    dragStartPosition := ⟨0, 0⟩, isDragging := false,
    originalPosition := ⟨0, 0⟩, dragThreshold := 5, snapToGrid := true,
    gridSize := 20, isDraggable := true }

/-- An empty drop zone. -/
def zEmpty : DropZone :=
  { widgets := [], showGrid := true, gridSize := 20, layoutMode := "free" }

/-- A sample widget for the drop-zone claims. -/
def wA : ZWidget := { widgetId := "a", pos := ⟨0, 0⟩, size := ⟨50, 30⟩ }

/-- A zone already containing `wA`. -/
def zOne : DropZone :=
  { widgets := [wA], showGrid := true, gridSize := 20, layoutMode := "free" }

/-- Three overlapping widgets for the distribute witness. -/
def wsC : List ZWidget :=
  [{ widgetId := "b", pos := ⟨100, 7⟩, size := ⟨30, 5⟩ },
   { widgetId := "a", pos := ⟨0, 0⟩, size := ⟨10, 5⟩ },
   { widgetId := "c", pos := ⟨40, 3⟩, size := ⟨20, 5⟩ }]

/-! ## Theorems -/

/-- C10: when the event manager is disabled, `emit_event` returns `None`
and has no effect at all — the state (including the history) is unchanged
and the invocation log is empty; `enable_event_manager` afterwards yields
exactly the original manager with the enabled flag set, so emission
behaves normally again (in particular it returns an event, not `None`). -/
theorem disabled_emit_noop (s : EventManager) (name : String)
    (p : EventPriority) :
    (s.disableEventManager).emitEvent name p = (none, s.disableEventManager, []) ∧
    (s.disableEventManager).enableEventManager = { s with enabled := true } ∧
    (((s.disableEventManager).enableEventManager).emitEvent name p).1.isSome = true := by
  refine ⟨?_, rfl, ?_⟩
  · simp [EventManager.emitEvent, EventManager.disableEventManager]
  · simp only [EventManager.emitEvent, EventManager.enableEventManager,
      EventManager.disableEventManager]
    cases lookupHandlers s.eventHandlers name
    · simp
    · simp
      split <;> simp

/-- C9: toggling the grid visibility and changing the grid size touch only
the grid configuration fields — the widget collection (hence every
widget's position and size) and the layout mode are unchanged. -/
theorem grid_config_pure (z : DropZone) (visible : Bool) (g : Int) :
    (setGridVisible z visible).widgets = z.widgets ∧
    (setGridVisible z visible).layoutMode = z.layoutMode ∧
    (setGridVisible z visible).gridSize = z.gridSize ∧
    (setGridVisible z visible).showGrid = visible ∧
    (setGridSize z g).widgets = z.widgets ∧
    (setGridSize z g).layoutMode = z.layoutMode ∧
    (setGridSize z g).showGrid = z.showGrid ∧
    ((setGridVisible z visible).widgets.map fun w => (w.pos, w.size))
      = z.widgets.map fun w => (w.pos, w.size) :=
  ⟨rfl, rfl, rfl, rfl, rfl, rfl, rfl, rfl⟩

/-- C6: on release of an active drag, a valid final position is kept and
announced with `drag_finished`; an invalid one is silently reverted to the
position recorded at press time — no signal is emitted for the revert and
no error is raised (the release handler is total). -/
theorem release_valid_or_revert (w : DragWidget) (h : w.isDragging = true) :
    (isValidPosition w w.pos = true →
      mouseReleaseEvent w true
        = ({ w with isDragging := false }, [Emit.dragFinished w.pos])) ∧
    (isValidPosition w w.pos = false →
      mouseReleaseEvent w true
        = ({ w with isDragging := false, pos := w.originalPosition }, [])) := by
  have hv : isValidPosition { w with isDragging := false } w.pos
      = isValidPosition w w.pos := rfl
  constructor <;> intro hval <;> simp [mouseReleaseEvent, h, hv, hval]

theorem release_valid_or_revert_witness :
    mouseReleaseEvent wRel true
      = ({ wRel with isDragging := false }, [Emit.dragFinished wRel.pos]) :=
  (release_valid_or_revert wRel rfl).1 (by decide)

/-- Moves whose Manhattan distance from the recorded press point stays
below the drag threshold leave a draggable widget entirely unchanged and
emit nothing. -/
theorem moves_below_threshold (w : DragWidget) (moves : List Pt)
    (hd : w.isDraggable = true)
    (hsmall : ∀ q ∈ moves,
      (q.sub w.dragStartPosition).manhattanLength < w.dragThreshold) :
    runMoves w moves = (w, []) := by
  induction moves with
  | nil => rfl
  | cons q qs ih =>
    have h1 : mouseMoveEvent w q true = (w, []) := by
      simp [mouseMoveEvent, hd, hsmall q (by simp)]
    simp [runMoves, h1, ih fun r hr => hsmall r (by simp [hr])]

/-- C4: after a left press on a draggable widget, any sequence of
pointer-move samples each staying within the drag threshold (Manhattan
distance from the press point) fires no `drag_started`, emits nothing at
all, and leaves the widget's position unchanged. -/
theorem below_threshold_no_drag (w : DragWidget) (press : Pt)
    (moves : List Pt) (hd : w.isDraggable = true)
    (hsmall : ∀ q ∈ moves, (q.sub press).manhattanLength < w.dragThreshold) :
    runMoves (mousePressEvent w press true) moves
      = (mousePressEvent w press true, []) ∧
    (runMoves (mousePressEvent w press true) moves).1.pos = w.pos ∧
    Emit.dragStarted ∉ (runMoves (mousePressEvent w press true) moves).2 := by
  have hps : mousePressEvent w press true
      = { w with dragStartPosition := press, originalPosition := w.pos } := by
    simp [mousePressEvent, hd]
  have key : runMoves (mousePressEvent w press true) moves
      = (mousePressEvent w press true, []) := by
    apply moves_below_threshold
    · rw [hps]
      exact hd
    · intro q hq
      rw [hps]
      exact hsmall q hq
  refine ⟨key, ?_, ?_⟩ <;> rw [key] <;> simp [hps]

theorem below_threshold_no_drag_witness :
    runMoves (mousePressEvent wMov ⟨10, 10⟩ true) [⟨12, 11⟩, ⟨8, 9⟩]
      = (mousePressEvent wMov ⟨10, 10⟩ true, []) :=
  (below_threshold_no_drag wMov ⟨10, 10⟩ [⟨12, 11⟩, ⟨8, 9⟩] rfl (by decide)).1

/-- C7 counterexample: the claim predicts that a first widget added to an
empty zone with no explicit position is placed at `(n*50, n*30)` with `n`
the entity count at the moment of the call, i.e. at `(0, 0)`; the code
measures the count after appending and places it at `(50, 30)`. -/
theorem add_widget_offset_counterexample :
    ((addWidget zEmpty wA none).1.widgets.map ZWidget.pos = [⟨50, 30⟩]) ∧
    ¬ ((addWidget zEmpty wA none).1.widgets.map ZWidget.pos
        = [⟨(0 : Int) * 50, (0 : Int) * 30⟩]) := by
  decide

/-- C7 (amended): adding a widget whose id is already present is a no-op
(no signal, collection untouched); a new widget with no (truthy) explicit
position is appended and placed at `((n+1)*50, (n+1)*30)` where `n` is the
entity count at the moment of the call — the code measures the count after
the append — and `layout_changed` is emitted; `layout_changed` is emitted
for every successful add. -/
theorem add_widget_spec (z : DropZone) (w : ZWidget) (position : Option Pt) :
    ((z.widgets.map ZWidget.widgetId).contains w.widgetId = true →
      addWidget z w position = (z, [])) ∧
    ((z.widgets.map ZWidget.widgetId).contains w.widgetId = false →
      qpointTruthy position = false →
      addWidget z w position
        = ({ z with widgets := z.widgets ++
              [{ w with pos := ⟨((z.widgets.length : Int) + 1) * 50,
                               ((z.widgets.length : Int) + 1) * 30⟩ }] },
           [ZoneEmit.layoutChanged])) ∧
    ((z.widgets.map ZWidget.widgetId).contains w.widgetId = false →
      (addWidget z w position).2 = [ZoneEmit.layoutChanged]) := by
  refine ⟨fun h => ?_, fun h ht => ?_, fun h => ?_⟩
  · have hmem : ∃ x ∈ z.widgets, x.widgetId = w.widgetId := by simpa using h
    simp [addWidget, hmem]
  · have hno : ¬ ∃ x ∈ z.widgets, x.widgetId = w.widgetId := by simpa using h
    simp [addWidget, hno, ht]
  · have hno : ¬ ∃ x ∈ z.widgets, x.widgetId = w.widgetId := by simpa using h
    simp [addWidget, hno]

/-- C5 counterexample: grid snap enabled at `g = 20` on a widget resting at
`(5, 5)`; a drag to an out-of-bounds position is reverted on release to the
press-time origin `(5, 5)`, so the position the widget holds after the drag
ends is not a multiple of the grid size — refuting "every committed
position (including the position the entity holds after the drag ends)
satisfies `position.x mod g == 0` and `position.y mod g == 0`". -/
theorem snap_revert_not_aligned :
    (mouseReleaseEvent
        (mouseMoveEvent (mousePressEvent wSnap ⟨0, 0⟩ true) ⟨300, 0⟩ true).1
        true).1.pos = ⟨5, 5⟩ ∧
    ¬ ((mouseReleaseEvent
          (mouseMoveEvent (mousePressEvent wSnap ⟨0, 0⟩ true) ⟨300, 0⟩ true).1
          true).1.pos.x % 20 = 0 ∧
       (mouseReleaseEvent
          (mouseMoveEvent (mousePressEvent wSnap ⟨0, 0⟩ true) ⟨300, 0⟩ true).1
          true).1.pos.y % 20 = 0) := by
  with_unfolding_all decide

/-- C5 (amended): with grid snap enabled at size `g > 0`, every position a
drag applies is the per-axis quantization `round(value / g) * g` of the
candidate position and hence a multiple of `g` on both axes; a release at
a valid position keeps the (snapped) position, so positions committed by
an in-bounds release are multiples of `g`; an out-of-bounds release
reverts to the press-time origin, which need not be grid-aligned; in
particular dragging the widget `wEx` at `(100, 100)` by `(17, -3)` with
`g = 20` commits `(120, 100)`. -/
theorem snap_grid_aligned :
    (∀ (g : Int) (p : Pt), 0 < g →
      (snapToGridP g p).x % g = 0 ∧ (snapToGridP g p).y % g = 0) ∧
    (∀ (w : DragWidget) (localPos : Pt), w.snapToGrid = true →
      (mouseMoveEvent w localPos true).1.pos = w.pos ∨
      (mouseMoveEvent w localPos true).1.pos
        = snapToGridP w.gridSize (w.pos.add (localPos.sub w.dragStartPosition))) ∧
    (∀ w : DragWidget, w.isDragging = true → isValidPosition w w.pos = true →
      (mouseReleaseEvent w true).1.pos = w.pos) ∧
    (mouseReleaseEvent
        (mouseMoveEvent (mousePressEvent wEx ⟨10, 10⟩ true) ⟨27, 7⟩ true).1
        true).1.pos = ⟨120, 100⟩ ∧
    (mouseReleaseEvent
        (mouseMoveEvent (mousePressEvent wEx ⟨10, 10⟩ true) ⟨27, 7⟩ true).1
        true).2 = [Emit.dragFinished ⟨120, 100⟩] := by
  refine ⟨?_, ?_, ?_, by with_unfolding_all decide, by with_unfolding_all decide⟩
  · intro g p _
    exact ⟨Int.mul_emod_left _ _, Int.mul_emod_left _ _⟩
  · intro w localPos hsnap
    by_cases hg : ¬ (True ∧ w.isDraggable = true)
    · left
      simp only [mouseMoveEvent]
      rw [if_pos (by simpa using hg)]
    · by_cases hd : (localPos.sub w.dragStartPosition).manhattanLength
          < w.dragThreshold
      · left
        simp only [mouseMoveEvent]
        rw [if_neg (by simpa using hg), if_pos hd]
      · right
        simp only [mouseMoveEvent]
        rw [if_neg (by simpa using hg), if_neg hd]
        by_cases hdr : w.isDragging = true
        · simp [hdr, hsnap]
        · simp [hdr, hsnap]
  · intro w hdr hval
    have hv : isValidPosition { w with isDragging := false } w.pos
        = isValidPosition w w.pos := rfl
    simp [mouseReleaseEvent, hdr, hv, hval]

theorem snap_grid_aligned_witness :
    (snapToGridP 20 ⟨7, 3⟩).x % 20 = 0 ∧ (snapToGridP 20 ⟨7, 3⟩).y % 20 = 0 :=
  snap_grid_aligned.1 20 ⟨7, 3⟩ (by decide)

/-- C1: registering a HIGH and a NORMAL priority handler for the same type
(in either order) and emitting that type invokes the HIGH handler first and
then the NORMAL one, provided the first callback does not cancel the event;
two handlers registered with equal priority keep their insertion order in
the type's handler list. -/
theorem priority_dispatch_order (t : String) (pr : EventPriority)
    (cbH cbN : Event → Event)
    (hcb : ∀ e, (cbH e).cancelled = e.cancelled) :
    emitIds ((EventManager.init.registerEvent t 1 cbH .high false).registerEvent
        t 2 cbN .normal false) t pr = [1, 2] ∧
    emitIds ((EventManager.init.registerEvent t 2 cbN .normal false).registerEvent
        t 1 cbH .high false) t pr = [1, 2] ∧
    (∀ (p : EventPriority) (cb1 cb2 : Event → Event) (o1 o2 : Bool),
      lookupHandlers ((EventManager.init.registerEvent t 1 cb1 p o1).registerEvent
          t 2 cb2 p o2).eventHandlers t
        = some [{ hid := 1, callback := cb1, priority := p, once := o1,
                  callCount := 0, enabled := true },
                { hid := 2, callback := cb2, priority := p, once := o2,
                  callCount := 0, enabled := true }]) := by
  refine ⟨?_, ?_, ?_⟩
  · simp [emitIds, emitLog, EventManager.emitEvent, EventManager.registerEvent,
      EventManager.init, lookupHandlers, setHandlers, sortByPriorityDesc,
      sortInsert, EventPriority.value, runHandlers, EventHandler.call,
      addToHistory, hcb]
  · simp [emitIds, emitLog, EventManager.emitEvent, EventManager.registerEvent,
      EventManager.init, lookupHandlers, setHandlers, sortByPriorityDesc,
      sortInsert, EventPriority.value, runHandlers, EventHandler.call,
      addToHistory, hcb]
  · intro p cb1 cb2 o1 o2
    simp [EventManager.registerEvent, EventManager.init, lookupHandlers,
      setHandlers, sortByPriorityDesc, sortInsert, lt_irrefl]

theorem priority_dispatch_order_witness :
    emitIds ((EventManager.init.registerEvent "t" 1 id .high false).registerEvent
        "t" 2 id .normal false) "t" .normal = [1, 2] :=
  (priority_dispatch_order "t" .normal id id fun _ => rfl).1

/-- Each dispatch phase produces a chained log ending at the phase's final
event. -/
theorem runHandlers_chain (hs : List EventHandler) (e : Event) :
    chainedFrom e (runHandlers hs e).2.2 (runHandlers hs e).2.1 := by
  induction hs generalizing e with
  | nil => simp [runHandlers, chainedFrom]
  | cons h hs ih =>
    by_cases he : h.enabled = true
    · by_cases hc : e.cancelled = true
      · simp [runHandlers, hc, chainedFrom]
      · have hcf : e.cancelled = false := by simpa using hc
        have hcall : (h.call e).2 = h.callback e := by
          simp [EventHandler.call, he]
        have hcond : ¬ (¬ h.enabled = true ∨ e.cancelled = true) := by
          simp [he, hcf]
        simp only [runHandlers]
        rw [if_neg hcond]
        exact ⟨rfl, hcf, by rw [← hcall]; exact ih (h.call e).2⟩
    · simp [runHandlers, he, chainedFrom]

/-- Chained logs compose under concatenation. -/
theorem chainedFrom_append {l1 l2 : List (EventHandler × Event)} :
    ∀ {e em efin : Event}, chainedFrom e l1 em → chainedFrom em l2 efin →
      chainedFrom e (l1 ++ l2) efin := by
  induction l1 with
  | nil =>
    intro e em efin h1 h2
    simp only [chainedFrom] at h1
    subst h1
    simpa using h2
  | cons q tl ih =>
    intro e em efin h1 h2
    obtain ⟨hh, ev⟩ := q
    obtain ⟨hev, hcanc, hrest⟩ := h1
    exact ⟨hev, hcanc, ih hrest h2⟩

/-- The full emission log is chained from the freshly created event. -/
theorem emit_chain (s : EventManager) (n : String) (p : EventPriority) :
    ∃ efin, chainedFrom
      { eventType := n, priority := p, cancelled := false, handled := false }
      (emitLog s n p) efin := by
  unfold emitLog EventManager.emitEvent
  by_cases hs : s.enabled = true
  · simp only [hs, not_true_eq_false, if_false]
    cases hl : lookupHandlers s.eventHandlers n with
    | none =>
      simp only [hl]
      exact ⟨_, runHandlers_chain _ _⟩
    | some ths =>
      simp only [hl]
      split
      · exact ⟨_, chainedFrom_append (runHandlers_chain _ _) (runHandlers_chain _ _)⟩
      · exact ⟨_, runHandlers_chain _ _⟩
  · simp only [hs]
    simp [chainedFrom]

/-- In a chained log every handler received an uncancelled event. -/
theorem chainedFrom_uncancelled :
    ∀ {l : List (EventHandler × Event)} {e efin : Event},
      chainedFrom e l efin →
      ∀ i (hi : i < l.length), (l.get ⟨i, hi⟩).2.cancelled = false := by
  intro l
  induction l with
  | nil => intro e efin _ i hi; simp at hi
  | cons q tl ih =>
    intro e efin h i hi
    obtain ⟨hh, ev⟩ := q
    match i with
    | 0 => exact h.2.1
    | Nat.succ j => exact ih h.2.2 j (by simpa using hi)

/-- In a chained log each entry's event is the previous entry's callback
output. -/
theorem chainedFrom_thread :
    ∀ {l : List (EventHandler × Event)} {e efin : Event},
      chainedFrom e l efin →
      ∀ i (h1 : i < l.length) (h2 : i + 1 < l.length),
        (l.get ⟨i + 1, h2⟩).2
          = (l.get ⟨i, h1⟩).1.callback (l.get ⟨i, h1⟩).2 := by
  intro l
  induction l with
  | nil => intro e efin _ i h1 h2; simp at h1
  | cons q tl ih =>
    intro e efin h i h1 h2
    obtain ⟨hh, ev⟩ := q
    match i with
    | 0 =>
      match tl, h.2.2 with
      | (hh2, ev2) :: tl2, hrest =>
        have : ev2 = hh.callback e := hrest.1
        simp only [List.get]
        rw [h.1]
        exact this
    | Nat.succ j => exact ih h.2.2 j (by simpa using h1) (by simpa using h2)

/-- C2: during a single dispatch no handler ever receives a cancelled
event, and consecutive log entries are threaded by the callbacks; together
these say that once any handler (global or type-specific) sets the
cancelled flag, no later handler of that dispatch is invoked. -/
theorem cancel_stops_dispatch (s : EventManager) (n : String)
    (p : EventPriority) :
    (∀ i (hi : i < (emitLog s n p).length),
      ((emitLog s n p).get ⟨i, hi⟩).2.cancelled = false) ∧
    (∀ i (h1 : i < (emitLog s n p).length)
        (h2 : i + 1 < (emitLog s n p).length),
      ((emitLog s n p).get ⟨i + 1, h2⟩).2
        = ((emitLog s n p).get ⟨i, h1⟩).1.callback
            ((emitLog s n p).get ⟨i, h1⟩).2) := by
  obtain ⟨efin, hch⟩ := emit_chain s n p
  exact ⟨fun i hi => chainedFrom_uncancelled hch i hi,
         fun i h1 h2 => chainedFrom_thread hch i h1 h2⟩

theorem cancel_stops_dispatch_witness :
    ((emitLog sCancel "t" EventPriority.normal).get ⟨0, by decide⟩).2.cancelled
      = false :=
  (cancel_stops_dispatch sCancel "t" EventPriority.normal).1 0 (by decide)

/-- Emission appends exactly the freshly created event to the history (via
`_add_to_history`) and leaves the capacity and the enabled flag alone, no
matter which dispatch branch is taken. -/
theorem emit_history_evolution (s : EventManager) (n : String)
    (p : EventPriority) (hs : s.enabled = true) :
    (s.emitEvent n p).2.1.eventHistory
      = addToHistory s.eventHistory s.maxHistory
          { eventType := n, priority := p, cancelled := false, handled := false } ∧
    (s.emitEvent n p).2.1.maxHistory = s.maxHistory ∧
    (s.emitEvent n p).2.1.enabled = true := by
  unfold EventManager.emitEvent
  simp only [hs, not_true_eq_false, if_false, Bool.false_eq_true]
  cases hl : lookupHandlers s.eventHandlers n with
  | none => exact ⟨rfl, rfl, rfl⟩
  | some ths =>
    split_ifs <;> exact ⟨rfl, rfl, rfl⟩

/-- The ring-buffer recurrence in closed form: folding `_add_to_history`
over new events keeps exactly the `M` most recent entries (all of them
while at most `M` exist). -/
theorem foldl_addToHistory (M : Nat) :
    ∀ (L H : List Event), H.length ≤ M →
      L.foldl (fun h e => addToHistory h M e) H
        = (H ++ L).drop (H.length + L.length - M) := by
  intro L
  induction L with
  | nil =>
    intro H hH
    simp [Nat.sub_eq_zero_of_le hH]
  | cons e L ih =>
    intro H hH
    rcases Nat.lt_or_ge H.length M with hlt | hge
    · have hcond : ¬ M < H.length + 1 := by omega
      have h1 : addToHistory H M e = H ++ [e] := by
        simp [addToHistory, hcond]
      rw [List.foldl_cons, h1,
        ih (H ++ [e]) (by simp only [List.length_append, List.length_singleton, List.length_cons, List.length_nil]; omega)]
      have hidx3 : (H ++ [e]).length + L.length - M
          = H.length + (e :: L).length - M := by
        simp only [List.length_append, List.length_singleton, List.length_cons, List.length_nil]
        omega
      rw [List.append_assoc, List.singleton_append, hidx3]
    · have heq : H.length = M := le_antisymm hH hge
      have hcond : M < H.length + 1 := by omega
      have h1 : addToHistory H M e = (H ++ [e]).tail := by
        simp [addToHistory, hcond]
      have htl : (H ++ [e]).tail.length ≤ M := by
        simp only [List.length_tail, List.length_append, List.length_singleton]
        omega
      rw [List.foldl_cons, h1, ih _ htl]
      have hlist : (H ++ [e]).tail ++ L = (H ++ e :: L).tail := by
        cases H <;> simp
      rw [hlist]
      have hidx : (H ++ [e]).tail.length + L.length - M = L.length := by
        simp only [List.length_tail, List.length_append, List.length_singleton]
        omega
      rw [hidx]
      have hidx2 : H.length + (e :: L).length - M = L.length + 1 := by
        simp only [List.length_cons]
        omega
      rw [hidx2, ← List.drop_one, List.drop_drop]
      congr 1
      omega

/-- The state after emitting a whole sequence: the history is the fold of
`_add_to_history` over the created events, and the capacity and enabled
flag survive. -/
theorem emitAll_history :
    ∀ (L : List (String × EventPriority)) (s : EventManager),
      s.enabled = true →
      (emitAll s L).eventHistory
        = (L.map fun q =>
            ({ eventType := q.1, priority := q.2, cancelled := false,
               handled := false } : Event)).foldl
            (fun h e => addToHistory h s.maxHistory e) s.eventHistory ∧
      (emitAll s L).enabled = true ∧
      (emitAll s L).maxHistory = s.maxHistory := by
  intro L
  induction L with
  | nil => intro s hs; exact ⟨rfl, hs, rfl⟩
  | cons q L ih =>
    intro s hs
    obtain ⟨n1, p1⟩ := q
    obtain ⟨hh, hm, he⟩ := emit_history_evolution s n1 p1 hs
    obtain ⟨ih1, ih2, ih3⟩ := ih (s.emitEvent n1 p1).2.1 he
    refine ⟨?_, ?_, ?_⟩
    · simp only [emitAll, List.map_cons, List.foldl_cons]
      rw [ih1, hh, hm]
    · simp only [emitAll]
      exact ih2
    · simp only [emitAll]
      rw [ih3, hm]

/-- C3: after emitting any sequence of `N` events on a fresh manager the
history holds exactly the `min N 1000` most recent events, in emission
order (the oldest `N - 1000` have been evicted). -/
theorem history_bounded (L : List (String × EventPriority)) :
    (emitAll EventManager.init L).eventHistory
      = (L.map fun q =>
          ({ eventType := q.1, priority := q.2, cancelled := false,
             handled := false } : Event)).drop (L.length - 1000) ∧
    (emitAll EventManager.init L).eventHistory.length = min L.length 1000 := by
  obtain ⟨h1, _, _⟩ := emitAll_history L EventManager.init rfl
  have h2 := foldl_addToHistory 1000
    (L.map fun q =>
      ({ eventType := q.1, priority := q.2, cancelled := false,
         handled := false } : Event)) [] (by simp)
  constructor
  · rw [h1]
    show _ = (L.map _).drop (L.length - 1000)
    rw [show EventManager.init.maxHistory = 1000 from rfl,
        show EventManager.init.eventHistory = [] from rfl, h2]
    simp
  · rw [h1, show EventManager.init.maxHistory = 1000 from rfl,
        show EventManager.init.eventHistory = [] from rfl, h2]
    simp only [List.nil_append, List.length_nil, Nat.zero_add,
      List.length_drop, List.length_map]
    omega

/-- Inserting into the x-sorted list is a permutation of consing. -/
theorem insertByX_perm (w : ZWidget) :
    ∀ l : List ZWidget, List.Perm (insertByX w l) (w :: l) := by
  intro l
  induction l with
  | nil => simp [insertByX]
  | cons v vs ih =>
    by_cases h : w.pos.x ≤ v.pos.x
    · simp [insertByX, h]
    · simp only [insertByX, if_neg h]
      exact (ih.cons v).trans (List.Perm.swap w v vs)

/-- The stable sort by x is a permutation of its input. -/
theorem sortByX_perm : ∀ l : List ZWidget, List.Perm (sortByX l) l := by
  intro l
  induction l with
  | nil => simp [sortByX]
  | cons a l ih =>
    have hstep : sortByX (a :: l) = insertByX a (sortByX l) := rfl
    rw [hstep]
    exact (insertByX_perm a (sortByX l)).trans (ih.cons a)

/-- Insertion preserves sortedness by x. -/
theorem insertByX_pairwise (w : ZWidget) :
    ∀ l : List ZWidget,
      List.Pairwise (fun a b => a.pos.x ≤ b.pos.x) l →
      List.Pairwise (fun a b => a.pos.x ≤ b.pos.x) (insertByX w l) := by
  intro l
  induction l with
  | nil => intro _; simp [insertByX]
  | cons v vs ih =>
    intro hp
    rw [List.pairwise_cons] at hp
    obtain ⟨hv, hvs⟩ := hp
    by_cases h : w.pos.x ≤ v.pos.x
    · simp only [insertByX, if_pos h]
      refine List.Pairwise.cons ?_ (List.Pairwise.cons hv hvs)
      intro b hb
      rcases List.mem_cons.mp hb with rfl | hb2
      · exact h
      · exact le_trans h (hv b hb2)
    · simp only [insertByX, if_neg h]
      refine List.Pairwise.cons ?_ (ih hvs)
      intro b hb
      have hb2 : b = w ∨ b ∈ vs := by
        have hm := (insertByX_perm w vs).mem_iff.mp hb
        simpa using hm
      rcases hb2 with rfl | hb3
      · exact (not_le.mp h).le
      · exact hv b hb3

/-- The stable sort by x is sorted (pairwise nondecreasing x). -/
theorem sortByX_pairwise :
    ∀ l : List ZWidget,
      List.Pairwise (fun a b => a.pos.x ≤ b.pos.x) (sortByX l) := by
  intro l
  induction l with
  | nil => simp [sortByX]
  | cons a l ih => exact insertByX_pairwise a (sortByX l) ih

/-- Folding `min` over elements not below the seed returns the seed. -/
theorem foldl_min_of_le (x0 : ℤ) :
    ∀ xs : List ℤ, (∀ b ∈ xs, x0 ≤ b) → xs.foldl min x0 = x0 := by
  intro xs
  induction xs with
  | nil => intro _; rfl
  | cons b bs ih =>
    intro h
    have hb : x0 ≤ b := h b (by simp)
    simp only [List.foldl_cons, min_eq_left hb]
    exact ih fun c hc => h c (by simp [hc])

/-- `Rat.floor` agrees with the `Int.floor` of the rational order. -/
theorem ratFloor_eq_floor (q : ℚ) : q.floor = ⌊q⌋ := by
  rw [Rat.floor_def', Rat.floor_def]

/-- Truncation is the identity on integers. -/
theorem truncQ_intCast (z : ℤ) : truncQ ((z : ℤ) : ℚ) = z := by
  unfold truncQ
  simp only [ratFloor_eq_floor]
  split
  · exact Int.floor_intCast z
  · rw [show -((z : ℤ) : ℚ) = ((-z : ℤ) : ℚ) by push_cast; ring,
      Int.floor_intCast]
    ring

/-- Truncation moves a value by strictly less than one. -/
theorem truncQ_dist_lt (q : ℚ) : |(truncQ q : ℚ) - q| < 1 := by
  unfold truncQ
  split
  · rw [ratFloor_eq_floor, abs_lt]
    constructor
    · have h1 := Int.lt_floor_add_one q
      linarith
    · have h2 := Int.floor_le q
      linarith
  · rw [ratFloor_eq_floor, abs_lt]
    push_cast
    constructor
    · have h1 := Int.floor_le (-q)
      linarith
    · have h2 := Int.lt_floor_add_one (-q)
      linarith

/-- Index formula for the placement loop of `distribute_widgets`. -/
theorem placeLoop_get (sp : ℚ) :
    ∀ (l : List ZWidget) (c : ℚ) (i : Nat),
      (placeLoop sp c l).get? i
        = (l.get? i).map fun w =>
            { w with pos := ⟨truncQ (c + (prefixW l i : ℚ) + i * sp),
                             w.pos.y⟩ } := by
  intro l
  induction l with
  | nil => intro c i; simp [placeLoop]
  | cons w tl ih =>
    intro c i
    match i with
    | 0 =>
      simp only [placeLoop, List.get?, Option.map_some']
      norm_num [prefixW]
    | Nat.succ j =>
      simp only [placeLoop, List.get?]
      rw [ih (c + (w.size.x : ℚ) + sp) j]
      have harg : c + (w.size.x : ℚ) + sp + (prefixW tl j : ℚ) + (j : ℚ) * sp
          = c + (prefixW (w :: tl) (j + 1) : ℚ) + ((j : ℚ) + 1) * sp := by
        simp only [prefixW]
        push_cast
        ring
      cases htl : tl.get? j with
      | none => simp
      | some v =>
        simp only [Option.map_some']
        rw [show ((Nat.succ j : ℕ) : ℚ) = (j : ℚ) + 1 from by push_cast; ring,
          ← harg]

/-- One placement step of widths. -/
theorem prefixW_succ :
    ∀ (l : List ZWidget) (i : Nat),
      prefixW l (i + 1) = prefixW l i + widthAt l i := by
  intro l
  induction l with
  | nil => intro i; cases i <;> simp [prefixW, widthAt, List.get?]
  | cons w tl ih =>
    intro i
    cases i with
    | zero => simp [prefixW, widthAt, List.get?]
    | succ j =>
      have hw : widthAt (w :: tl) (j + 1) = widthAt tl j := rfl
      simp only [prefixW, hw]
      rw [ih j]
      ring

/-- Closed form for the exact placement positions. -/
theorem rposW_eq (ws : List ZWidget) :
    ∀ i : Nat, rposW ws i
      = x0Of ws + (prefixW (sortedOf ws) i : ℚ) + (i : ℚ) * spacingOf ws := by
  intro i
  induction i with
  | zero => simp [rposW, prefixW]
  | succ j ih =>
    simp only [rposW]
    rw [ih, prefixW_succ]
    push_cast
    ring

/-- The widths of all but the last widget sum to the total minus the last
width. -/
theorem prefixW_last :
    ∀ l : List ZWidget, l ≠ [] →
      prefixW l (l.length - 1)
        = (l.map fun w => w.size.x).sum - widthAt l (l.length - 1) := by
  intro l
  induction l with
  | nil => intro h; exact absurd rfl h
  | cons w tl ih =>
    intro _
    rcases eq_or_ne tl [] with rfl | hne
    · simp [prefixW, widthAt, List.get?]
    · obtain ⟨k, hk⟩ : ∃ k, tl.length = k + 1 :=
        ⟨tl.length - 1,
          (Nat.succ_pred_eq_of_pos (List.length_pos.mpr hne)).symm⟩
      have hlen : (w :: tl).length - 1 = k + 1 := by simp [hk]
      rw [hlen]
      have ih2 := ih hne
      rw [show tl.length - 1 = k from by omega] at ih2
      have hwAt : widthAt (w :: tl) (k + 1) = widthAt tl k := rfl
      simp only [prefixW, hwAt]
      rw [ih2]
      simp only [List.map_cons, List.sum_cons]
      ring

/-- C8: distribute-horizontal on fewer than two widgets changes nothing; on
`n ≥ 2` widgets it sorts them stably by x (a permutation, pairwise
nondecreasing), keeps the first (leftmost) widget unchanged, places the
`i`-th sorted widget at the integer truncation of the exact position
`rposW`, whose consecutive values differ by exactly `width + spacing`
(equal gaps up to the truncation, which moves each position by less than
one), and the last widget's right edge equals the pre-distribution maximum
right edge exactly. -/
theorem distribute_horizontal_spec (ws : List ZWidget) :
    (ws.length < 2 → distributeWidgetsH ws = ws) ∧
    (2 ≤ ws.length →
      List.Perm (sortedOf ws) ws ∧
      List.Pairwise (fun a b => a.pos.x ≤ b.pos.x) (sortedOf ws) ∧
      (∀ i : Nat, (distributeWidgetsH ws).get? i
        = ((sortedOf ws).get? i).map fun w =>
            { w with pos := ⟨truncQ (rposW ws i), w.pos.y⟩ }) ∧
      (distributeWidgetsH ws).get? 0 = (sortedOf ws).get? 0 ∧
      (∀ i : Nat, rposW ws (i + 1) - rposW ws i
        = (widthAt (sortedOf ws) i : ℚ) + spacingOf ws) ∧
      (∀ i : Nat, |(truncQ (rposW ws i) : ℚ) - rposW ws i| < 1) ∧
      ((distributeWidgetsH ws).get? (ws.length - 1)).map
          (fun w => w.pos.x + w.size.x)
        = some (listMax ((sortedOf ws).map fun w => w.pos.x + w.size.x))) := by
  constructor
  · intro h
    unfold distributeWidgetsH
    rw [if_pos h]
  · intro h2
    have hperm : List.Perm (sortedOf ws) ws := sortByX_perm ws
    have hpair : List.Pairwise (fun a b => a.pos.x ≤ b.pos.x) (sortedOf ws) :=
      sortByX_pairwise ws
    have hlen : (sortedOf ws).length = ws.length := hperm.length_eq
    have hd : distributeWidgetsH ws
        = placeLoop (spacingOf ws) (x0Of ws) (sortedOf ws) := by
      unfold distributeWidgetsH
      rw [if_neg (by omega)]
    have hget : ∀ i : Nat, (distributeWidgetsH ws).get? i
        = ((sortedOf ws).get? i).map fun w =>
            { w with pos := ⟨truncQ (rposW ws i), w.pos.y⟩ } := by
      intro i
      rw [hd, placeLoop_get (spacingOf ws) (sortedOf ws) (x0Of ws) i,
        rposW_eq ws i]
    obtain ⟨w0, t0, hS⟩ : ∃ w0 t0, sortedOf ws = w0 :: t0 := by
      cases hS : sortedOf ws with
      | nil => rw [hS] at hlen; simp at hlen; omega
      | cons a b => exact ⟨a, b, rfl⟩
    have hx0 : x0Of ws = ((w0.pos.x : ℤ) : ℚ) := by
      simp [x0Of, hS]
    have hmin : listMin ((sortedOf ws).map fun w => w.pos.x) = w0.pos.x := by
      rw [hS]
      simp only [List.map_cons, listMin]
      apply foldl_min_of_le
      intro b hb
      obtain ⟨v, hv, rfl⟩ := List.mem_map.mp hb
      exact (List.pairwise_cons.mp (hS ▸ hpair)).1 v hv
    have hhead : (distributeWidgetsH ws).get? 0 = (sortedOf ws).get? 0 := by
      rw [hget 0, hS]
      simp only [List.get?, Option.map_some']
      have h0 : rposW ws 0 = ((w0.pos.x : ℤ) : ℚ) := by simp [rposW, hx0]
      rw [h0, truncQ_intCast]
    have hgap : ∀ i : Nat, rposW ws (i + 1) - rposW ws i
        = (widthAt (sortedOf ws) i : ℚ) + spacingOf ws := by
      intro i
      simp only [rposW]
      ring
    have hnm : ((ws.length : ℚ) - 1) ≠ 0 := by
      have hc : (2 : ℚ) ≤ (ws.length : ℚ) := by exact_mod_cast h2
      linarith
    have hsp : ((ws.length - 1 : ℕ) : ℚ) * spacingOf ws
        = ((listMax ((sortedOf ws).map fun w => w.pos.x + w.size.x)
            - listMin ((sortedOf ws).map fun w => w.pos.x)
            - ((sortedOf ws).map fun w => w.size.x).sum : ℤ) : ℚ) := by
      unfold spacingOf
      rw [if_pos (by omega : 1 < ws.length)]
      rw [show ((ws.length - 1 : ℕ) : ℚ) = (ws.length : ℚ) - 1 from by
        push_cast [Nat.cast_sub (by omega : 1 ≤ ws.length)]
        ring]
      field_simp
    have hlast : rposW ws (ws.length - 1)
        = ((listMax ((sortedOf ws).map fun w => w.pos.x + w.size.x)
            - widthAt (sortedOf ws) (ws.length - 1) : ℤ) : ℚ) := by
      rw [rposW_eq]
      have hpre := prefixW_last (sortedOf ws) (by rw [hS]; simp)
      rw [hlen] at hpre
      rw [hpre, hx0, hsp, ← hmin]
      push_cast
      ring
    have hlast2 : truncQ (rposW ws (ws.length - 1))
        = listMax ((sortedOf ws).map fun w => w.pos.x + w.size.x)
          - widthAt (sortedOf ws) (ws.length - 1) := by
      rw [hlast, truncQ_intCast]
    obtain ⟨wl, hwl⟩ : ∃ wl, (sortedOf ws).get? (ws.length - 1) = some wl := by
      cases hq : (sortedOf ws).get? (ws.length - 1) with
      | none =>
        exfalso
        rw [List.get?_eq_none] at hq
        omega
      | some v => exact ⟨v, rfl⟩
    have hwidth : widthAt (sortedOf ws) (ws.length - 1) = wl.size.x := by
      unfold widthAt
      rw [hwl]
      rfl
    have hfinal : ((distributeWidgetsH ws).get? (ws.length - 1)).map
        (fun w => w.pos.x + w.size.x)
        = some (listMax ((sortedOf ws).map fun w => w.pos.x + w.size.x)) := by
      rw [hget (ws.length - 1), hwl]
      simp only [Option.map_some']
      congr 1
      show truncQ (rposW ws (ws.length - 1)) + wl.size.x = _
      rw [hlast2, hwidth]
      ring
    exact ⟨hperm, hpair, hget, hhead, hgap, fun i => truncQ_dist_lt _, hfinal⟩

theorem distribute_horizontal_spec_witness :
    2 ≤ wsC.length ∧ (distributeWidgetsH wsC).get? 0 = (sortedOf wsC).get? 0 :=
  ⟨by decide, ((distribute_horizontal_spec wsC).2 (by decide)).2.2.2.1⟩

theorem add_widget_spec_witness :
    (addWidget zOne wA none = (zOne, [])) ∧
    (addWidget zEmpty wA none
      = ({ zEmpty with widgets := zEmpty.widgets ++
            [{ wA with pos := ⟨((zEmpty.widgets.length : Int) + 1) * 50,
                              ((zEmpty.widgets.length : Int) + 1) * 30⟩ }] },
         [ZoneEmit.layoutChanged])) :=
  ⟨(add_widget_spec zOne wA none).1 (by decide),
   (add_widget_spec zEmpty wA none).2.1 (by decide) (by decide)⟩

end DDW
